import Mathlib

/-!
Shallow embedding of the mark-and-sweep collector in src/gc.c.

Machine details of the embedding:
* the allocation table, object array and stack are total functions out of Nat;
  only indices below OBJECTS_MAX (resp. below stackSize) are meaningful, as in C.
* a C assert that fails aborts the process; operations therefore return
  Except (VMErr × VM) _, the error carrying the state at the moment of abort.
* reading allocation_table out of bounds (the unbounded free-slot scan of
  vm_push) and dereferencing a null or unallocated object pointer are
  undefined behaviour in C; the embedding returns an error / none there.
* gc_mark recurses through the object graph; each recursion level first sets
  the mark bit of a fresh slot among the OBJECTS_MAX slots, so the recursion
  depth never exceeds OBJECTS_MAX + 1. The embedding uses that number as fuel.
* free(unmarked_obj) in gc_sweep does not clear allocated_objects[idx]; the
  embedding likewise leaves the objects field unchanged when a slot is freed.
-/

namespace GC

/-- OBJECTS_MAX from gc.c: max number of allocated objects. -/
def OBJECTS_MAX : Nat := 1024

/-- STACK_MAX from gc.c: max number of variables on the VM stack. -/
def STACK_MAX : Nat := 256

/-- INITIAL_GC_THRESHOLD from gc.c. -/
def INITIAL_GC_THRESHOLD : Nat := 128

/-- Object from gc.c: tagged union, either OBJECT_INT or OBJECT_PAIR
(the pair holding two ObjectIndex values into the arena). -/
inductive Obj where
  | int (value : Int)
  | pair (first second : Nat)
deriving DecidableEq, Repr

/-- Errors corresponding to the asserts in gc.c (which abort the process)
and to the out-of-bounds free-slot scan of vm_push (undefined behaviour). -/
inductive VMErr where
  | tooManyObjects
  | stackOverflow
  | noObjects
  | stackUnderflow
  | freeScanOverrun
deriving DecidableEq, Repr

/-- The VM struct from gc.c. allocation_table is split into its two Bool
fields; allocated_objects is a function to Option Obj (none = null pointer). -/
structure VM where
  objectCount : Nat
  gcThreshold : Nat
  allocated : Nat → Bool
  marked : Nat → Bool
  objects : Nat → Option Obj
  stackSize : Nat
  stack : Nat → Nat

/-- vm_init from gc.c: zero-initialized VM. -/
def vm_init : VM :=
  { objectCount := 0
    gcThreshold := INITIAL_GC_THRESHOLD
    allocated := fun _ => false
    marked := fun _ => false
    objects := fun _ => none
    stackSize := 0
    stack := fun _ => 0 }

/-- vm_get from gc.c: return allocated_objects[index]. -/
def vm_get (vm : VM) (index : Nat) : Option Obj := vm.objects index

/-- The free-slot scan of vm_push: starting at idx, advance while the slot is
allocated in the table. remaining counts the slots left before the scan runs
past OBJECTS_MAX, where the C loop reads out of bounds, modelled as none. -/
def findFreeGo (table : Nat → Bool) : Nat → Nat → Option Nat
  | _, 0 => none
  | idx, remaining + 1 =>
    if table idx then findFreeGo table (idx + 1) remaining else some idx

/-- The free-slot scan of vm_push from slot 0. -/
def findFreeLoop (vm : VM) : Option Nat := findFreeGo vm.allocated 0 OBJECTS_MAX

/-- vm_push from gc.c: assert capacity, assert stack space, first-fit a free
slot, store the object there, append its index to the stack. -/
def vm_push (vm : VM) (object : Obj) : Except (VMErr × VM) VM :=
  if vm.objectCount < OBJECTS_MAX then
    if vm.stackSize < STACK_MAX then
      match findFreeLoop vm with
      | none => .error (.freeScanOverrun, vm)
      | some objIdx =>
          .ok { vm with
                objectCount := vm.objectCount + 1
                allocated := fun k => if k = objIdx then true else vm.allocated k
                objects := fun k => if k = objIdx then some object else vm.objects k
                stackSize := vm.stackSize + 1
                stack := fun k => if k = vm.stackSize then objIdx else vm.stack k }
    else .error (.stackOverflow, vm)
  else .error (.tooManyObjects, vm)

/-- vm_pop from gc.c: assert objects exist, assert stack nonempty, decrement
stack_size and return the index that was on top. -/
def vm_pop (vm : VM) : Except (VMErr × VM) (Nat × VM) :=
  if 0 < vm.objectCount then
    if 0 < vm.stackSize then
      .ok (vm.stack (vm.stackSize - 1), { vm with stackSize := vm.stackSize - 1 })
    else .error (.stackUnderflow, vm)
  else .error (.noObjects, vm)

/-- vm_push_int from gc.c. -/
def vm_push_int (vm : VM) (n : Int) : Except (VMErr × VM) VM :=
  vm_push vm (.int n)

/-- vm_push_pair from gc.c: pop first, pop second, push the pair. -/
def vm_push_pair (vm : VM) : Except (VMErr × VM) VM :=
  match vm_pop vm with
  | .error e => .error e
  | .ok (first, vm1) =>
      match vm_pop vm1 with
      | .error e => .error e
      | .ok (second, vm2) => vm_push vm2 (.pair first second)

/-- gc_mark from gc.c, with explicit fuel bounding the recursion depth.
Out-of-range index or a failed assert(allocated) or a null object pointer
gives none; a marked slot returns at once; otherwise the slot is marked and,
for a pair, both children are marked recursively. -/
def gc_markF : Nat → VM → Nat → Option VM
  | 0, _, _ => none
  | fuel + 1, vm, objectIndex =>
    if objectIndex < OBJECTS_MAX then
      if vm.allocated objectIndex then
        if vm.marked objectIndex then some vm
        else
          let vm1 : VM :=
            { vm with marked := fun k => if k = objectIndex then true else vm.marked k }
          match vm1.objects objectIndex with
          | some (.int _) => some vm1
          | some (.pair a b) =>
              match gc_markF fuel vm1 a with
              | none => none
              | some vm2 => gc_markF fuel vm2 b
          | none => none
      else none
    else none

/-- gc_mark from gc.c. Fuel OBJECTS_MAX + 1 is enough: every recursion level
below the root marks a fresh slot among the OBJECTS_MAX slots before
descending, so the depth never exceeds OBJECTS_MAX + 1. -/
def gc_mark (vm : VM) (objectIndex : Nat) : Option VM :=
  gc_markF (OBJECTS_MAX + 1) vm objectIndex

/-- The loop of gc_mark_all: mark vm.stack[i], then vm.stack[i+1], ..., with
remaining iterations left. gc_mark never changes stack_size, so counting the
iterations down from stack_size matches the C loop condition. -/
def gc_markAllGo : VM → Nat → Nat → Option VM
  | vm, _, 0 => some vm
  | vm, i, remaining + 1 =>
    match gc_mark vm (vm.stack i) with
    | none => none
    | some vm1 => gc_markAllGo vm1 (i + 1) remaining

/-- gc_mark_all from gc.c: mark from every root on the stack. -/
def gc_mark_all (vm : VM) : Option VM :=
  gc_markAllGo vm 0 vm.stackSize

/-- The loop of gc_sweep from gc.c: walk slots from objIdx upward with
remaining iterations left before OBJECTS_MAX is reached; stop at the first
unallocated slot (the break in the C source); unmark marked slots; free
allocated-and-unmarked slots, decrementing object_count. -/
def gc_sweepGo : VM → Nat → Nat → VM
  | vm, _, 0 => vm
  | vm, objIdx, remaining + 1 =>
    if vm.allocated objIdx then
      if vm.marked objIdx then
        gc_sweepGo
          { vm with marked := fun k => if k = objIdx then false else vm.marked k }
          (objIdx + 1) remaining
      else
        gc_sweepGo
          { vm with
            allocated := fun k => if k = objIdx then false else vm.allocated k
            objectCount := vm.objectCount - 1 }
          (objIdx + 1) remaining
    else vm

/-- gc_sweep from gc.c: the sweep loop over all OBJECTS_MAX slots from 0. -/
def gc_sweep (vm : VM) : VM := gc_sweepGo vm 0 OBJECTS_MAX

/-- A full collection cycle as run by main in gc.c: gc_mark_all then gc_sweep. -/
def gc_collect (vm : VM) : Option VM := (gc_mark_all vm).map gc_sweep

/-! Helpers that run an operation and keep the state it left behind (the ok
state, or the state carried by the error). Used to build concrete scenarios. -/

/-- Run vm_push_int and keep the resulting state. -/
def execPushInt (n : Int) (vm : VM) : VM :=
  match vm_push_int vm n with
  | .ok v => v
  | .error (_, v) => v

/-- Run vm_push_pair and keep the resulting state. -/
def execPushPair (vm : VM) : VM :=
  match vm_push_pair vm with
  | .ok v => v
  | .error (_, v) => v

/-- Run vm_pop and keep the resulting state. -/
def execPop (vm : VM) : VM :=
  match vm_pop vm with
  | .ok (_, v) => v
  | .error (_, v) => v

/-- Run a collection cycle and keep the resulting state (unchanged if the mark
phase aborts). -/
def execCollect (vm : VM) : VM :=
  match gc_collect vm with
  | some v => v
  | none => vm

/-! Concrete scenario of main in gc.c: push 11, push 22, make a pair,
push 33, pop it, then collect. -/

/-- State of main just before the collection: slots 0,1,2,3 hold 11, 22,
the pair (1,0), and 33; the stack holds only the pair handle 2. -/
def vmMainPre : VM :=
  execPop (execPushInt 33 (execPushPair (execPushInt 22 (execPushInt 11 vm_init))))

/-- State of main after the collection. -/
def vmMainPost : VM := execCollect vmMainPre

/-! Concrete scenario producing a hole: push 11, pop it, push 22 (slot 1,
since slot 0 is still occupied until the sweep), collect. The collection
frees slot 0 and keeps slot 2's 22 alive at slot 1: slot 0 is now a hole
before the occupied slot 1. -/

/-- State with a hole: slot 0 free, slot 1 occupied by 22, stack = [1]. -/
def vmHole : VM :=
  execCollect (execPushInt 22 (execPop (execPushInt 11 vm_init)))

/-- vmHole after popping the only root: slot 1 holds 22, occupied, unmarked,
unreachable; slot 0 is a free hole before it. -/
def vmHolePopped : VM := execPop vmHole

/-- A fresh VM after push_scalar 11 and push_scalar 22: slots 0 and 1, stack
= [0, 1]. -/
def vm22 : VM := execPushInt 22 (execPushInt 11 vm_init)

/-- A VM whose arena is completely occupied (every slot allocated, object
count at capacity). -/
def vmFullDemo : VM :=
  { objectCount := OBJECTS_MAX
    gcThreshold := INITIAL_GC_THRESHOLD
    allocated := fun _ => true
    marked := fun _ => false
    objects := fun _ => none
    stackSize := 0
    stack := fun _ => 0 }

/-- C8: starting from a fresh context, push_scalar 11; push_scalar 22;
push_composite; push_scalar 33; pop; collect frees the slot of the scalar 33
(slot 3), leaves the composite (slot 2) and its two scalar children (slots 0
and 1, holding 11 and 22) occupied, and the live object count is exactly 3. -/
theorem collect_main_scenario :
    (gc_collect vmMainPre).isSome = true ∧
    vmMainPost.objectCount = 3 ∧
    vmMainPost.allocated 3 = false ∧
    vmMainPost.allocated 2 = true ∧
    vmMainPost.allocated 1 = true ∧
    vmMainPost.allocated 0 = true ∧
    vm_get vmMainPost 2 = some (.pair 1 0) ∧
    vm_get vmMainPost 1 = some (.int 22) ∧
    vm_get vmMainPost 0 = some (.int 11) := by
  decide

/-- C1: the sweep scan of gc.c terminates at the first unoccupied slot (the
break on an unallocated entry), so an occupied-and-unmarked slot located after
a hole is NOT reclaimed, contrary to the claim and to the doc comment of
gc_sweep itself. In vmHolePopped, slot 0 is a free hole, slot 1 is occupied,
unmarked and unreachable (the root stack is empty); sweeping leaves slot 1
occupied and the object count at 1 instead of freeing it. -/
theorem sweep_stops_at_hole :
    vmHolePopped.allocated 0 = false ∧
    vmHolePopped.allocated 1 = true ∧
    vmHolePopped.marked 1 = false ∧
    vmHolePopped.stackSize = 0 ∧
    (gc_sweep vmHolePopped).allocated 1 = true ∧
    (gc_sweep vmHolePopped).objectCount = 1 := by
  decide

/-- C2: after a completed collection cycle (gc_mark_all then gc_sweep) the
marked bit is NOT always false: in vmHole slot 0 is a free hole and slot 1 is
occupied and on the root stack; mark_all sets marked on slot 1, then the sweep
scan breaks at the free slot 0 before ever visiting slot 1, so slot 1 leaves
the cycle with marked = true, contrary to the claim and to the doc comment of
gc_sweep itself. -/
theorem collect_leaves_mark_set_after_hole :
    vmHole.allocated 0 = false ∧
    vmHole.allocated 1 = true ∧
    vmHole.marked 1 = false ∧
    (gc_collect vmHole).isSome = true ∧
    (execCollect vmHole).marked 1 = true := by
  decide

/-- Reachability through the object graph: j is reachable from i by following
first/second fields of pair objects, under the object map f. -/
inductive ObjReach (f : Nat → Option Obj) : Nat → Nat → Prop where
  | refl (i : Nat) : ObjReach f i i
  | fst {i a b j : Nat} : f i = some (.pair a b) → ObjReach f a j → ObjReach f i j
  | snd {i a b j : Nat} : f i = some (.pair a b) → ObjReach f b j → ObjReach f i j

/-- The set of marked slots is closed under pair children, except possibly at
slots in G (the slots whose marking is still in progress). -/
def MarksClosed (vm : VM) (G : Set Nat) : Prop :=
  ∀ j a b, vm.marked j = true → vm.objects j = some (.pair a b) →
    j ∈ G ∨ (vm.marked a = true ∧ vm.marked b = true)

/-- gc_markF changes only the marked bits: the allocation table, objects,
stack, stack size and object count are untouched. -/
theorem gc_markF_pres : ∀ (fuel : Nat) (vm vm' : VM) (i : Nat),
    gc_markF fuel vm i = some vm' →
    vm'.allocated = vm.allocated ∧ vm'.objects = vm.objects ∧
    vm'.stack = vm.stack ∧ vm'.stackSize = vm.stackSize ∧
    vm'.objectCount = vm.objectCount := by
  intro fuel
  induction fuel with
  | zero => intro vm vm' i h; simp [gc_markF] at h
  | succ fuel ih =>
    intro vm vm' i h
    simp only [gc_markF] at h
    split at h
    · split at h
      · split at h
        · exact Option.some.inj h ▸ ⟨rfl, rfl, rfl, rfl, rfl⟩
        · split at h
          · exact Option.some.inj h ▸ ⟨rfl, rfl, rfl, rfl, rfl⟩
          · split at h
            · exact absurd h (by simp)
            · rename_i vm2 h2
              obtain ⟨p1, p2, p3, p4, p5⟩ := ih _ _ _ h2
              obtain ⟨q1, q2, q3, q4, q5⟩ := ih _ _ _ h
              exact ⟨q1.trans p1, q2.trans p2, q3.trans p3, q4.trans p4, q5.trans p5⟩
          · exact absurd h (by simp)
      · exact absurd h (by simp)
    · exact absurd h (by simp)

/-- gc_markF only sets marked bits, never clears them. -/
theorem gc_markF_mono : ∀ (fuel : Nat) (vm vm' : VM) (i : Nat),
    gc_markF fuel vm i = some vm' →
    ∀ j, vm.marked j = true → vm'.marked j = true := by
  intro fuel
  induction fuel with
  | zero => intro vm vm' i h; simp [gc_markF] at h
  | succ fuel ih =>
    intro vm vm' i h j hj
    simp only [gc_markF] at h
    split at h
    · split at h
      · split at h
        · exact Option.some.inj h ▸ hj
        · split at h
          · cases Option.some.inj h
            simpa using Or.inr hj
          · split at h
            · exact absurd h (by simp)
            · rename_i vm2 h2
              refine ih _ _ _ h j (ih _ _ _ h2 j ?_)
              simpa using Or.inr hj
          · exact absurd h (by simp)
      · exact absurd h (by simp)
    · exact absurd h (by simp)

/-- A successful gc_markF leaves its argument slot marked. -/
theorem gc_markF_marks_root : ∀ (fuel : Nat) (vm vm' : VM) (i : Nat),
    gc_markF fuel vm i = some vm' → vm'.marked i = true := by
  intro fuel
  cases fuel with
  | zero => intro vm vm' i h; simp [gc_markF] at h
  | succ fuel =>
    intro vm vm' i h
    simp only [gc_markF] at h
    split at h
    · split at h
      · split at h
        · exact Option.some.inj h ▸ (by assumption)
        · split at h
          · cases Option.some.inj h; simp
          · split at h
            · exact absurd h (by simp)
            · rename_i vm2 h2
              refine gc_markF_mono _ _ _ _ h i (gc_markF_mono _ _ _ _ h2 i ?_)
              simp
          · exact absurd h (by simp)
      · exact absurd h (by simp)
    · exact absurd h (by simp)

/-- A successful gc_markF implies the asserted preconditions of gc.c: the
index is within the arena and the slot is allocated. -/
theorem gc_markF_ok_inv : ∀ (fuel : Nat) (vm vm' : VM) (i : Nat),
    gc_markF fuel vm i = some vm' → i < OBJECTS_MAX ∧ vm.allocated i = true := by
  intro fuel
  cases fuel with
  | zero => intro vm vm' i h; simp [gc_markF] at h
  | succ fuel =>
    intro vm vm' i h
    simp only [gc_markF] at h
    split at h
    · split at h
      · exact ⟨by assumption, by assumption⟩
      · exact absurd h (by simp)
    · exact absurd h (by simp)

/-- Soundness of the mark phase: any slot marked by a successful gc_markF was
already marked or is reachable from the slot the call started at. -/
theorem gc_markF_sound : ∀ (fuel : Nat) (vm vm' : VM) (i : Nat),
    gc_markF fuel vm i = some vm' →
    ∀ j, vm'.marked j = true →
      vm.marked j = true ∨ ObjReach vm.objects i j := by
  intro fuel
  induction fuel with
  | zero => intro vm vm' i h; simp [gc_markF] at h
  | succ fuel ih =>
    intro vm vm' i h j hj
    simp only [gc_markF] at h
    split at h
    · split at h
      · split at h
        · exact Or.inl (Option.some.inj h ▸ hj)
        · split at h
          · cases Option.some.inj h
            simp only [VM.marked] at hj
            by_cases hji : j = i
            · subst hji; exact Or.inr (ObjReach.refl j)
            · rw [if_neg hji] at hj; exact Or.inl hj
          · rename_i a b hobj
            split at h
            · exact absurd h (by simp)
            · rename_i vm2 h2
              rcases ih _ _ _ h j hj with hj2 | hr2
              · rcases ih _ _ _ h2 j hj2 with hj1 | hr1
                · simp only [VM.marked] at hj1
                  by_cases hji : j = i
                  · subst hji; exact Or.inr (ObjReach.refl j)
                  · rw [if_neg hji] at hj1; exact Or.inl hj1
                · exact Or.inr (ObjReach.fst (by simpa using hobj) (by simpa using hr1))
              · have hobjeq := (gc_markF_pres _ _ _ _ h2).2.1
                rw [hobjeq] at hr2
                exact Or.inr (ObjReach.snd (by simpa using hobj) (by simpa using hr2))
          · exact absurd h (by simp)
      · exact absurd h (by simp)
    · exact absurd h (by simp)

/-- Closure invariant of the mark phase: a successful gc_markF preserves
closedness-except-G of the marked set (the freshly marked argument slot has
both its children marked by the time the call returns). -/
theorem gc_markF_closed : ∀ (fuel : Nat) (vm vm' : VM) (i : Nat) (G : Set Nat),
    MarksClosed vm G → gc_markF fuel vm i = some vm' → MarksClosed vm' G := by
  intro fuel
  induction fuel with
  | zero => intro vm vm' i G _ h; simp [gc_markF] at h
  | succ fuel ih =>
    intro vm vm' i G hcl h
    simp only [gc_markF] at h
    split at h
    · split at h
      · split at h
        · exact Option.some.inj h ▸ hcl
        · rename_i hnm
          split at h
          · rename_i v hint
            cases Option.some.inj h
            intro j c d hm ho
            simp only [VM.marked, VM.objects] at hm ho ⊢
            by_cases hji : j = i
            · subst hji
              rw [ho] at hint; exact absurd hint (by simp)
            · rw [if_neg hji] at hm
              rcases hcl j c d hm ho with hG | ⟨hc, hd⟩
              · exact Or.inl hG
              · refine Or.inr ⟨?_, ?_⟩ <;> simp [hc, hd]
          · rename_i a b hobj
            split at h
            · exact absurd h (by simp)
            · rename_i vm2 h2
              have hcl1 : MarksClosed
                  { vm with marked := fun k => if k = i then true else vm.marked k }
                  (G ∪ {i}) := by
                intro j c d hm ho
                simp only [VM.marked, VM.objects] at hm ho
                by_cases hji : j = i
                · exact Or.inl (Set.mem_union_right _ (by simp [hji]))
                · rw [if_neg hji] at hm
                  rcases hcl j c d hm ho with hG | ⟨hc, hd⟩
                  · exact Or.inl (Set.mem_union_left _ hG)
                  · refine Or.inr ⟨?_, ?_⟩ <;> simp [hc, hd]
              have hcl2 := ih _ _ _ _ hcl1 h2
              have hcl3 := ih _ _ _ _ hcl2 h
              have hma : vm'.marked a = true :=
                gc_markF_mono _ _ _ _ h a (gc_markF_marks_root _ _ _ _ h2)
              have hmb : vm'.marked b = true := gc_markF_marks_root _ _ _ _ h
              have hobj' : vm'.objects = vm.objects := by
                have e2 := (gc_markF_pres _ _ _ _ h2).2.1
                have e3 := (gc_markF_pres _ _ _ _ h).2.1
                exact e3.trans e2
              intro j c d hm ho
              rcases hcl3 j c d hm ho with hG | hcd
              · rcases Set.mem_union _ _ _ |>.mp hG with hG | hji
                · exact Or.inl hG
                · have hji : j = i := by simpa using hji
                  subst hji
                  rw [hobj', hobj] at ho
                  obtain ⟨rfl, rfl⟩ : c = a ∧ d = b := by
                    cases ho; exact ⟨rfl, rfl⟩
                  exact Or.inr ⟨hma, hmb⟩
              · exact Or.inr hcd
          · exact absurd h (by simp)
      · exact absurd h (by simp)
    · exact absurd h (by simp)

/-- The gc_mark_all loop changes only marked bits. -/
theorem gc_markAllGo_pres : ∀ (r : Nat) (vm vm' : VM) (i : Nat),
    gc_markAllGo vm i r = some vm' →
    vm'.allocated = vm.allocated ∧ vm'.objects = vm.objects ∧
    vm'.stack = vm.stack ∧ vm'.stackSize = vm.stackSize ∧
    vm'.objectCount = vm.objectCount := by
  intro r
  induction r with
  | zero =>
    intro vm vm' i h
    cases Option.some.inj h
    exact ⟨rfl, rfl, rfl, rfl, rfl⟩
  | succ r ih =>
    intro vm vm' i h
    simp only [gc_markAllGo] at h
    split at h
    · exact absurd h (by simp)
    · rename_i vm1 h1
      obtain ⟨p1, p2, p3, p4, p5⟩ := gc_markF_pres _ _ _ _ h1
      obtain ⟨q1, q2, q3, q4, q5⟩ := ih _ _ _ h
      exact ⟨q1.trans p1, q2.trans p2, q3.trans p3, q4.trans p4, q5.trans p5⟩

/-- The gc_mark_all loop never clears marked bits. -/
theorem gc_markAllGo_mono : ∀ (r : Nat) (vm vm' : VM) (i : Nat),
    gc_markAllGo vm i r = some vm' →
    ∀ j, vm.marked j = true → vm'.marked j = true := by
  intro r
  induction r with
  | zero =>
    intro vm vm' i h j hj
    cases Option.some.inj h
    exact hj
  | succ r ih =>
    intro vm vm' i h j hj
    simp only [gc_markAllGo] at h
    split at h
    · exact absurd h (by simp)
    · rename_i vm1 h1
      exact ih _ _ _ h j (gc_markF_mono _ _ _ _ h1 j hj)

/-- After a successful run of the gc_mark_all loop over stack positions
[i, i+r), every root in that range is marked. -/
theorem gc_markAllGo_marks_roots : ∀ (r : Nat) (vm vm' : VM) (i : Nat),
    gc_markAllGo vm i r = some vm' →
    ∀ k, i ≤ k → k < i + r → vm'.marked (vm.stack k) = true := by
  intro r
  induction r with
  | zero => intro vm vm' i h k hik hk; omega
  | succ r ih =>
    intro vm vm' i h k hik hk
    simp only [gc_markAllGo] at h
    split at h
    · exact absurd h (by simp)
    · rename_i vm1 h1
      by_cases hki : k = i
      · subst hki
        exact gc_markAllGo_mono _ _ _ _ h _ (gc_markF_marks_root _ _ _ _ h1)
      · have hstk : vm1.stack = vm.stack := (gc_markF_pres _ _ _ _ h1).2.2.1
        have := ih _ _ _ h k (by omega) (by omega)
        rwa [hstk] at this

/-- Soundness of the gc_mark_all loop: any marked slot was already marked or
is reachable from one of the roots in stack positions [i, i+r). -/
theorem gc_markAllGo_sound : ∀ (r : Nat) (vm vm' : VM) (i : Nat),
    gc_markAllGo vm i r = some vm' →
    ∀ j, vm'.marked j = true →
      vm.marked j = true ∨
        ∃ k, i ≤ k ∧ k < i + r ∧ ObjReach vm.objects (vm.stack k) j := by
  intro r
  induction r with
  | zero =>
    intro vm vm' i h j hj
    cases Option.some.inj h
    exact Or.inl hj
  | succ r ih =>
    intro vm vm' i h j hj
    simp only [gc_markAllGo] at h
    split at h
    · exact absurd h (by simp)
    · rename_i vm1 h1
      obtain ⟨_, hobj, hstk, _, _⟩ := gc_markF_pres _ _ _ _ h1
      rcases ih _ _ _ h j hj with h0 | ⟨k, hik, hk, hre⟩
      · rcases gc_markF_sound _ _ _ _ h1 j h0 with h0 | hre
        · exact Or.inl h0
        · exact Or.inr ⟨i, Nat.le_refl i, by omega, hre⟩
      · rw [hobj, hstk] at hre
        exact Or.inr ⟨k, by omega, by omega, hre⟩

/-- The gc_mark_all loop preserves closedness-except-G of the marked set. -/
theorem gc_markAllGo_closed : ∀ (r : Nat) (vm vm' : VM) (i : Nat) (G : Set Nat),
    MarksClosed vm G → gc_markAllGo vm i r = some vm' → MarksClosed vm' G := by
  intro r
  induction r with
  | zero =>
    intro vm vm' i G hcl h
    cases Option.some.inj h
    exact hcl
  | succ r ih =>
    intro vm vm' i G hcl h
    simp only [gc_markAllGo] at h
    split at h
    · exact absurd h (by simp)
    · rename_i vm1 h1
      exact ih _ _ _ _ (gc_markF_closed _ _ _ _ _ hcl h1) h

/-- In a state whose marked set is closed under pair children, everything
reachable from a marked slot is marked. -/
theorem objReach_marked_of_closed (vm : VM) (hcl : MarksClosed vm ∅) :
    ∀ r j, ObjReach vm.objects r j → vm.marked r = true → vm.marked j = true := by
  intro r j hre
  induction hre with
  | refl i => exact fun h => h
  | fst hobj _ ihp =>
    intro hm
    rcases hcl _ _ _ hm hobj with hG | ⟨hc, _⟩
    · exact absurd hG (Set.not_mem_empty _)
    · exact ihp hc
  | snd hobj _ ihp =>
    intro hm
    rcases hcl _ _ _ hm hobj with hG | ⟨_, hd⟩
    · exact absurd hG (Set.not_mem_empty _)
    · exact ihp hd

/-- C5: when all marked bits are false at the start of the phase and
gc_mark_all completes, a slot is marked if and only if it is reachable from
some handle on the root stack (directly, or transitively through the
first/second fields of pairs). -/
theorem mark_all_marked_iff_reachable (vm vm' : VM)
    (hm : ∀ i, vm.marked i = false)
    (hrun : gc_mark_all vm = some vm') (j : Nat) :
    vm'.marked j = true ↔
      ∃ k, k < vm.stackSize ∧ ObjReach vm.objects (vm.stack k) j := by
  have hrun' : gc_markAllGo vm 0 vm.stackSize = some vm' := hrun
  constructor
  · intro hj
    rcases gc_markAllGo_sound _ _ _ _ hrun' j hj with h0 | ⟨k, _, hk, hre⟩
    · rw [hm j] at h0; exact absurd h0 (by simp)
    · exact ⟨k, by omega, hre⟩
  · rintro ⟨k, hk, hre⟩
    have hcl0 : MarksClosed vm ∅ := by
      intro a b c hma _
      rw [hm a] at hma
      exact absurd hma (by simp)
    have hcl' := gc_markAllGo_closed _ _ _ _ _ hcl0 hrun'
    have hroot : vm'.marked (vm.stack k) = true :=
      gc_markAllGo_marks_roots _ _ _ _ hrun' k (Nat.zero_le k) (by omega)
    have hobj : vm'.objects = vm.objects := (gc_markAllGo_pres _ _ _ _ hrun').2.1
    refine objReach_marked_of_closed vm' hcl' (vm.stack k) j ?_ hroot
    rw [hobj]
    exact hre

/-- Witness for C5: the pre-collection state of main (stack = [2], the pair)
satisfies the hypotheses, and the marked-iff-reachable conclusion holds for
the resulting marking. -/
theorem mark_all_marked_iff_reachable_witness :
    (∀ i, vmMainPre.marked i = false) ∧
    ∃ vm', gc_mark_all vmMainPre = some vm' ∧
      ∀ j, vm'.marked j = true ↔
        ∃ k, k < vmMainPre.stackSize ∧
          ObjReach vmMainPre.objects (vmMainPre.stack k) j := by
  refine ⟨fun i => rfl, ?_⟩
  have hs : (gc_mark_all vmMainPre).isSome = true := by decide
  refine ⟨(gc_mark_all vmMainPre).get hs, (Option.some_get hs).symm, fun j => ?_⟩
  exact mark_all_marked_iff_reachable vmMainPre _ (fun i => rfl)
    (Option.some_get hs).symm j

/-- C6: for an allocated handle, a successful gc_mark leaves the handle's
mark bit set, and calling gc_mark again on the same handle returns
immediately with the state unchanged (idempotence; the early return on an
already-marked slot is what terminates the traversal). -/
theorem gc_mark_idempotent (vm vm' : VM) (i : Nat)
    (halloc : vm.allocated i = true)
    (h1 : gc_mark vm i = some vm') :
    vm'.marked i = true ∧ gc_mark vm' i = some vm' := by
  have hroot := gc_markF_marks_root _ _ _ _ h1
  refine ⟨hroot, ?_⟩
  obtain ⟨hlt, _⟩ := gc_markF_ok_inv _ _ _ _ h1
  have halloc' : vm'.allocated i = true := by
    rw [(gc_markF_pres _ _ _ _ h1).1]; exact halloc
  show gc_markF (OBJECTS_MAX + 1) vm' i = some vm'
  simp [gc_markF, hlt, halloc', hroot]

/-- Witness for C6: a fresh VM with one scalar pushed; marking handle 0
succeeds, sets its bit, and the second mark is the identity. -/
theorem gc_mark_idempotent_witness :
    (execPushInt 7 vm_init).allocated 0 = true ∧
    ∃ vm', gc_mark (execPushInt 7 vm_init) 0 = some vm' ∧
      vm'.marked 0 = true ∧ gc_mark vm' 0 = some vm' := by
  refine ⟨by decide, ?_⟩
  have hs : (gc_mark (execPushInt 7 vm_init) 0).isSome = true := by decide
  have h := gc_mark_idempotent (execPushInt 7 vm_init) _ 0 (by decide)
    (Option.some_get hs).symm
  exact ⟨(gc_mark (execPushInt 7 vm_init) 0).get hs, (Option.some_get hs).symm,
    h.1, h.2⟩

/-- First-fit property of the free-slot scan: if some slot in the scanned
window is free, the scan returns the lowest free index of the window. -/
theorem findFreeGo_spec : ∀ (r : Nat) (table : Nat → Bool) (idx : Nat),
    (∃ i, idx ≤ i ∧ i < idx + r ∧ table i = false) →
    ∃ j, findFreeGo table idx r = some j ∧ idx ≤ j ∧ j < idx + r ∧
      table j = false ∧ ∀ k, idx ≤ k → k < j → table k = true := by
  intro r
  induction r with
  | zero => rintro table idx ⟨i, hi1, hi2, _⟩; omega
  | succ r ih =>
    rintro table idx ⟨i, hi1, hi2, hif⟩
    by_cases hidx : table idx = true
    · have hne : idx ≠ i := fun h => by rw [h, hif] at hidx; cases hidx
      obtain ⟨j, hj, hj1, hj2, hjf, hmin⟩ :=
        ih table (idx + 1) ⟨i, by omega, by omega, hif⟩
      refine ⟨j, ?_, by omega, by omega, hjf, ?_⟩
      · simpa [findFreeGo, hidx] using hj
      · intro k hk1 hk2
        by_cases hki : k = idx
        · rw [hki]; exact hidx
        · exact hmin k (by omega) hk2
    · have hidx' : table idx = false := by
        cases h : table idx
        · rfl
        · exact absurd h hidx
      exact ⟨idx, by simp [findFreeGo, hidx'], Nat.le_refl idx, by omega, hidx',
        fun k hk1 hk2 => by omega⟩

/-- First-fit property of the full scan of vm_push. -/
theorem findFreeLoop_spec (vm : VM)
    (hfree : ∃ i, i < OBJECTS_MAX ∧ vm.allocated i = false) :
    ∃ j, findFreeLoop vm = some j ∧ j < OBJECTS_MAX ∧
      vm.allocated j = false ∧ ∀ k, k < j → vm.allocated k = true := by
  obtain ⟨i, hi, hif⟩ := hfree
  obtain ⟨j, hj, _, hj2, hjf, hmin⟩ :=
    findFreeGo_spec OBJECTS_MAX vm.allocated 0 ⟨i, Nat.zero_le i, by omega, hif⟩
  exact ⟨j, hj, by omega, hjf, fun k hk => hmin k (Nat.zero_le k) hk⟩

/-- C7: in any state with spare arena capacity, a free slot and spare stack
space, push_scalar n followed by pop yields a handle whose get returns the
scalar n. -/
theorem push_int_pop_roundtrip (vm : VM) (n : Int)
    (hcap : vm.objectCount < OBJECTS_MAX)
    (hstk : vm.stackSize < STACK_MAX)
    (hfree : ∃ i, i < OBJECTS_MAX ∧ vm.allocated i = false) :
    ∃ vm1 j vm2, vm_push_int vm n = .ok vm1 ∧ vm_pop vm1 = .ok (j, vm2) ∧
      vm_get vm2 j = some (.int n) := by
  obtain ⟨j, hff, hjlt, hjf, _⟩ := findFreeLoop_spec vm hfree
  refine
    ⟨{ vm with
        objectCount := vm.objectCount + 1
        allocated := fun k => if k = j then true else vm.allocated k
        objects := fun k => if k = j then some (.int n) else vm.objects k
        stackSize := vm.stackSize + 1
        stack := fun k => if k = vm.stackSize then j else vm.stack k }, j,
      { vm with
        objectCount := vm.objectCount + 1
        allocated := fun k => if k = j then true else vm.allocated k
        objects := fun k => if k = j then some (.int n) else vm.objects k
        stackSize := vm.stackSize + 1 - 1
        stack := fun k => if k = vm.stackSize then j else vm.stack k }, ?_, ?_, ?_⟩
  · unfold vm_push_int vm_push
    rw [if_pos hcap, if_pos hstk, hff]
  · unfold vm_pop
    rw [if_pos (by simp), if_pos (by simp)]
    simp
  · simp [vm_get]

/-- Witness for C7: fresh VM, n = 7. -/
theorem push_int_pop_roundtrip_witness :
    vm_init.objectCount < OBJECTS_MAX ∧ vm_init.stackSize < STACK_MAX ∧
    ∃ vm1 j vm2, vm_push_int vm_init 7 = .ok vm1 ∧ vm_pop vm1 = .ok (j, vm2) ∧
      vm_get vm2 j = some (.int 7) :=
  ⟨by decide, by decide,
    push_int_pop_roundtrip vm_init 7 (by decide) (by decide) ⟨0, by decide, rfl⟩⟩

/-- C4: with at least two roots on the stack (and room for the allocation),
push_composite pops two handles, A being the most recently pushed one and B
the one below it, and allocates a pair with first = A and second = B, pushing
its handle where B used to sit. -/
theorem push_pair_pops_two (vm : VM)
    (h2 : 2 ≤ vm.stackSize) (hsz : vm.stackSize ≤ STACK_MAX)
    (hoc : 0 < vm.objectCount) (hcap : vm.objectCount < OBJECTS_MAX)
    (hfree : ∃ i, i < OBJECTS_MAX ∧ vm.allocated i = false) :
    ∃ j vm', vm_push_pair vm = .ok vm' ∧
      (∀ k, k < j → vm.allocated k = true) ∧ vm.allocated j = false ∧
      vm'.objects j =
        some (.pair (vm.stack (vm.stackSize - 1)) (vm.stack (vm.stackSize - 1 - 1))) ∧
      vm'.stackSize = vm.stackSize - 1 ∧
      vm'.stack (vm.stackSize - 1 - 1) = j ∧
      vm_get vm' j =
        some (.pair (vm.stack (vm.stackSize - 1)) (vm.stack (vm.stackSize - 1 - 1))) := by
  obtain ⟨j, hff, hjlt, hjf, hmin⟩ := findFreeLoop_spec vm hfree
  have hff' : findFreeGo vm.allocated 0 OBJECTS_MAX = some j := hff
  have hs0 : 0 < vm.stackSize := by omega
  have hs1 : 0 < vm.stackSize - 1 := by omega
  have hsz2 : vm.stackSize - 1 - 1 < STACK_MAX := by
    have e : STACK_MAX = 256 := rfl
    omega
  refine
    ⟨j,
      { vm with
        objectCount := vm.objectCount + 1
        allocated := fun k => if k = j then true else vm.allocated k
        objects := fun k =>
          if k = j then
            some (.pair (vm.stack (vm.stackSize - 1)) (vm.stack (vm.stackSize - 1 - 1)))
          else vm.objects k
        stackSize := vm.stackSize - 1 - 1 + 1
        stack := fun k => if k = vm.stackSize - 1 - 1 then j else vm.stack k },
      ?_, hmin, hjf, by simp,
      by show vm.stackSize - 1 - 1 + 1 = vm.stackSize - 1; omega,
      by simp, by simp [vm_get]⟩
  simp only [vm_push_pair, vm_pop, vm_push, findFreeLoop, hoc, hs0, hs1, hcap,
    hsz2, hff', if_true, if_pos]

/-- Witness for C4: push_scalar 11; push_scalar 22; push_composite on a fresh
VM satisfies the hypotheses, and concretely yields handle 2 whose get is the
pair (first = handle 1 holding 22, second = handle 0 holding 11). -/
theorem push_pair_pops_two_witness :
    (2 ≤ vm22.stackSize ∧ 0 < vm22.objectCount) ∧
    (∃ j vm', vm_push_pair vm22 = .ok vm' ∧
      (∀ k, k < j → vm22.allocated k = true) ∧ vm22.allocated j = false ∧
      vm'.objects j =
        some (.pair (vm22.stack (vm22.stackSize - 1)) (vm22.stack (vm22.stackSize - 1 - 1))) ∧
      vm'.stackSize = vm22.stackSize - 1 ∧
      vm'.stack (vm22.stackSize - 1 - 1) = j ∧
      vm_get vm' j =
        some (.pair (vm22.stack (vm22.stackSize - 1)) (vm22.stack (vm22.stackSize - 1 - 1)))) ∧
    vm_get (execPushPair vm22) 2 = some (.pair 1 0) ∧
    vm_get (execPushPair vm22) 1 = some (.int 22) ∧
    vm_get (execPushPair vm22) 0 = some (.int 11) :=
  ⟨⟨by decide, by decide⟩,
    push_pair_pops_two vm22 (by decide) (by decide) (by decide) (by decide)
      ⟨2, by decide, rfl⟩,
    by decide, by decide, by decide⟩

/-- C9: with the arena at capacity (every slot occupied, object count at the
maximum) an allocation attempt fails with the capacity condition and the
state is unchanged; with a free slot and room, allocation succeeds first-fit
at the lowest free index, marks it occupied, stores the object and pushes the
handle. -/
theorem vm_push_capacity_and_first_fit (vmFull vmFree : VM) (obj1 obj2 : Obj)
    (hfullocc : ∀ i, i < OBJECTS_MAX → vmFull.allocated i = true)
    (hfullcnt : vmFull.objectCount = OBJECTS_MAX)
    (hcap : vmFree.objectCount < OBJECTS_MAX)
    (hstk : vmFree.stackSize < STACK_MAX)
    (hfree : ∃ i, i < OBJECTS_MAX ∧ vmFree.allocated i = false) :
    vm_push vmFull obj1 = .error (.tooManyObjects, vmFull) ∧
    ∃ j vm', vm_push vmFree obj2 = .ok vm' ∧
      (∀ k, k < j → vmFree.allocated k = true) ∧ vmFree.allocated j = false ∧
      vm'.allocated j = true ∧ vm'.objects j = some obj2 ∧
      vm'.stack vmFree.stackSize = j ∧ vm'.stackSize = vmFree.stackSize + 1 ∧
      vm'.objectCount = vmFree.objectCount + 1 := by
  constructor
  · unfold vm_push
    rw [if_neg (by omega)]
  · obtain ⟨j, hff, hjlt, hjf, hmin⟩ := findFreeLoop_spec vmFree hfree
    refine
      ⟨j,
        { vmFree with
          objectCount := vmFree.objectCount + 1
          allocated := fun k => if k = j then true else vmFree.allocated k
          objects := fun k => if k = j then some obj2 else vmFree.objects k
          stackSize := vmFree.stackSize + 1
          stack := fun k => if k = vmFree.stackSize then j else vmFree.stack k },
        ?_, hmin, hjf, by simp, by simp, by simp, rfl, rfl⟩
    unfold vm_push
    rw [if_pos hcap, if_pos hstk, hff]

/-- Witness for C9: a fully occupied arena rejects a push unchanged; a fresh
VM accepts one first-fit at slot 0. -/
theorem vm_push_capacity_and_first_fit_witness :
    vm_push vmFullDemo (.int 1) = .error (.tooManyObjects, vmFullDemo) ∧
    ∃ j vm', vm_push vm_init (.int 2) = .ok vm' ∧
      (∀ k, k < j → vm_init.allocated k = true) ∧ vm_init.allocated j = false ∧
      vm'.allocated j = true ∧ vm'.objects j = some (.int 2) ∧
      vm'.stack vm_init.stackSize = j ∧ vm'.stackSize = vm_init.stackSize + 1 ∧
      vm'.objectCount = vm_init.objectCount + 1 :=
  vm_push_capacity_and_first_fit vmFullDemo vm_init (.int 1) (.int 2)
    (fun _ _ => rfl) rfl (by decide) (by decide) ⟨0, by decide, rfl⟩

/-- The state an operation leaves behind: the ok state, or the state carried
by the error (the machine state at the moment the C assert aborted). -/
def resultState : Except (VMErr × VM) VM → VM
  | .ok v => v
  | .error (_, v) => v

/-- The error an operation reports, if any. -/
def resultErr : Except (VMErr × VM) VM → Option VMErr
  | .ok _ => none
  | .error (e, _) => some e

/-- A VM with exactly one root: a single scalar pushed on a fresh VM. -/
def vmOne : VM := execPushInt 5 vm_init

/-- C3 counterexample: push_composite with exactly one root fails with
stack-underflow, but does NOT leave the root stack as it was: the first pop
has already decremented stack_size from 1 to 0 at the moment of failure, so
the failure is not atomic as claimed. -/
theorem push_pair_underflow_not_atomic :
    resultErr (vm_push_pair vmOne) = some .stackUnderflow ∧
    (resultState (vm_push_pair vmOne)).stackSize = 0 ∧
    vmOne.stackSize = 1 := by
  decide

/-- C3 amended: with fewer than two roots (and a positive object count, so
the No-objects assert passes), push_composite fails with stack-underflow;
the arena (allocation table, objects, object count) is untouched, but the
stack size at the point of failure is 0 — i.e. one pop may already have
happened; with zero roots the state is fully unchanged. -/
theorem push_pair_underflow (vm : VM)
    (hoc : 0 < vm.objectCount) (hlt : vm.stackSize < 2) :
    vm_push_pair vm = .error (.stackUnderflow, { vm with stackSize := 0 }) := by
  obtain ⟨cnt, thr, al, mk, ob, sz, st⟩ := vm
  simp only at hoc hlt ⊢
  interval_cases sz
  · simp [vm_push_pair, vm_pop, hoc]
  · simp [vm_push_pair, vm_pop, hoc]

/-- Witness for the amended C3: the one-root VM. -/
theorem push_pair_underflow_witness :
    0 < vmOne.objectCount ∧ vmOne.stackSize < 2 ∧
    vm_push_pair vmOne = .error (.stackUnderflow, { vmOne with stackSize := 0 }) :=
  ⟨by decide, by decide, push_pair_underflow vmOne (by decide) (by decide)⟩

/-- Number of allocated slots in an allocation table. -/
def countAllocF (table : Nat → Bool) : Nat :=
  ((Finset.range OBJECTS_MAX).filter fun i => table i = true).card

/-- Setting a free in-range slot to allocated raises the count by one. -/
theorem countAllocF_set_true {table : Nat → Bool} {j : Nat}
    (hj : j < OBJECTS_MAX) (hf : table j = false) :
    countAllocF (fun k => if k = j then true else table k) = countAllocF table + 1 := by
  have hset : ((Finset.range OBJECTS_MAX).filter
        fun i => (if i = j then true else table i) = true)
      = insert j ((Finset.range OBJECTS_MAX).filter fun i => table i = true) := by
    ext i
    by_cases hij : i = j
    · subst hij
      simp [Finset.mem_filter, Finset.mem_range, hj]
    · simp [Finset.mem_filter, Finset.mem_range, hij]
  rw [countAllocF, countAllocF, hset,
    Finset.card_insert_of_not_mem (by simp [Finset.mem_filter, hf])]

/-- Freeing an allocated in-range slot lowers the count by one, and the count
was positive. -/
theorem countAllocF_set_false {table : Nat → Bool} {j : Nat}
    (hj : j < OBJECTS_MAX) (ht : table j = true) :
    countAllocF (fun k => if k = j then false else table k) = countAllocF table - 1 ∧
      0 < countAllocF table := by
  have hmem : j ∈ (Finset.range OBJECTS_MAX).filter (fun i => table i = true) := by
    simp [Finset.mem_filter, Finset.mem_range, hj, ht]
  have hset : ((Finset.range OBJECTS_MAX).filter
        fun i => (if i = j then false else table i) = true)
      = ((Finset.range OBJECTS_MAX).filter fun i => table i = true).erase j := by
    ext i
    by_cases hij : i = j
    · subst hij
      simp [Finset.mem_filter, Finset.mem_erase]
    · simp [Finset.mem_filter, Finset.mem_range, Finset.mem_erase, hij]
  constructor
  · rw [countAllocF, countAllocF, hset, Finset.card_erase_of_mem hmem]
  · exact Finset.card_pos.mpr ⟨j, hmem⟩

/-- A successful free-slot scan returns a free index inside the window. -/
theorem findFreeGo_some_inv : ∀ (r : Nat) (table : Nat → Bool) (idx j : Nat),
    findFreeGo table idx r = some j →
    table j = false ∧ idx ≤ j ∧ j < idx + r := by
  intro r
  induction r with
  | zero => intro table idx j h; simp [findFreeGo] at h
  | succ r ih =>
    intro table idx j h
    simp only [findFreeGo] at h
    split at h
    · obtain ⟨h1, h2, h3⟩ := ih _ _ _ h
      exact ⟨h1, by omega, by omega⟩
    · rename_i htable
      have hj : j = idx := (Option.some.inj h).symm
      subst hj
      exact ⟨Bool.eq_false_iff.mpr htable, Nat.le_refl j, by omega⟩

/-- The sweep loop never touches the stack, stack size or object array. -/
theorem gc_sweepGo_pres : ∀ (r : Nat) (vm : VM) (idx : Nat),
    (gc_sweepGo vm idx r).stack = vm.stack ∧
    (gc_sweepGo vm idx r).stackSize = vm.stackSize ∧
    (gc_sweepGo vm idx r).objects = vm.objects := by
  intro r
  induction r with
  | zero => exact fun vm idx => ⟨rfl, rfl, rfl⟩
  | succ r ih =>
    intro vm idx
    simp only [gc_sweepGo]
    split
    · split
      · exact ih _ _
      · exact ih _ _
    · exact ⟨rfl, rfl, rfl⟩

/-- The sweep loop keeps every slot that is marked, or that lies strictly
before the current scan position, allocated. -/
theorem gc_sweepGo_keep : ∀ (r : Nat) (vm : VM) (idx j : Nat),
    vm.allocated j = true → (vm.marked j = true ∨ j < idx) →
    (gc_sweepGo vm idx r).allocated j = true := by
  intro r
  induction r with
  | zero => exact fun vm idx j ha _ => ha
  | succ r ih =>
    intro vm idx j ha hm
    simp only [gc_sweepGo]
    split
    · rename_i hai
      split
      · rename_i hmi
        refine ih _ _ _ (by simpa using ha) ?_
        by_cases hji : j = idx
        · exact Or.inr (by omega)
        · rcases hm with hm | hm
          · exact Or.inl (by simp [hji, hm])
          · exact Or.inr (by omega)
      · rename_i hmi
        have hji : j ≠ idx := by
          intro hji
          subst hji
          rcases hm with hm | hm
          · exact hmi hm
          · omega
        refine ih _ _ _ (by simp [hji, ha]) ?_
        rcases hm with hm | hm
        · exact Or.inl (by simpa using hm)
        · exact Or.inr (by omega)
    · exact ha

/-- The sweep loop keeps object_count equal to the number of allocated slots,
provided it starts that way and the scan window stays inside the arena. -/
theorem gc_sweepGo_count : ∀ (r : Nat) (vm : VM) (idx : Nat),
    idx + r ≤ OBJECTS_MAX →
    vm.objectCount = countAllocF vm.allocated →
    (gc_sweepGo vm idx r).objectCount = countAllocF (gc_sweepGo vm idx r).allocated := by
  intro r
  induction r with
  | zero => exact fun vm idx _ hc => hc
  | succ r ih =>
    intro vm idx hb hc
    simp only [gc_sweepGo]
    split
    · rename_i hai
      split
      · exact ih _ _ (by omega) (by simpa using hc)
      · refine ih _ _ (by omega) ?_
        obtain ⟨hdec, hpos⟩ :=
          @countAllocF_set_false vm.allocated idx (by omega) hai
        show vm.objectCount - 1 = countAllocF fun k => if k = idx then false else vm.allocated k
        rw [hdec, hc]
    · exact hc

/-- The invariant of C10: object_count equals the number of allocated slots,
and every handle on the live part of the root stack names an allocated slot. -/
def Inv (vm : VM) : Prop :=
  vm.objectCount = countAllocF vm.allocated ∧
  ∀ i, i < vm.stackSize → vm.allocated (vm.stack i) = true

/-- vm_push preserves the invariant. -/
theorem inv_push (vm vm' : VM) (obj : Obj)
    (hinv : Inv vm) (h : vm_push vm obj = .ok vm') : Inv vm' := by
  unfold vm_push at h
  split at h
  · split at h
    · split at h
      · exact absurd h (by simp)
      · rename_i j hff
        obtain ⟨hjf, _, hjlt⟩ := findFreeGo_some_inv _ _ _ _ hff
        cases Except.ok.inj h
        constructor
        · show vm.objectCount + 1 = _
          rw [countAllocF_set_true (by omega) hjf, hinv.1]
        · intro i hi
          simp only at hi ⊢
          by_cases his : i = vm.stackSize
          · simp [his]
          · have hi' : i < vm.stackSize := by omega
            have := hinv.2 i hi'
            simp only [if_neg his]
            by_cases hsj : vm.stack i = j
            · simp [hsj]
            · simp [hsj, this]
    · exact absurd h (by simp)
  · exact absurd h (by simp)

/-- vm_pop preserves the invariant. -/
theorem inv_pop (vm vm' : VM) (x : Nat)
    (hinv : Inv vm) (h : vm_pop vm = .ok (x, vm')) : Inv vm' := by
  unfold vm_pop at h
  split at h
  · split at h
    · cases Except.ok.inj h
      exact ⟨hinv.1, fun i hi => hinv.2 i (by simp only at hi; omega)⟩
    · exact absurd h (by simp)
  · exact absurd h (by simp)

/-- vm_push_pair preserves the invariant. -/
theorem inv_push_pair (vm vm' : VM)
    (hinv : Inv vm) (h : vm_push_pair vm = .ok vm') : Inv vm' := by
  unfold vm_push_pair at h
  split at h
  · exact absurd h (by simp)
  · rename_i a vm1 h1
    split at h
    · exact absurd h (by simp)
    · rename_i b vm2 h2
      exact inv_push _ _ _ (inv_pop _ _ _ (inv_pop _ _ _ hinv h1) h2) h

/-- gc_mark_all preserves the invariant (it changes only marked bits). -/
theorem inv_mark_all (vm vm' : VM)
    (hinv : Inv vm) (h : gc_mark_all vm = some vm') : Inv vm' := by
  obtain ⟨ha, _, hst, hsz, hoc⟩ := gc_markAllGo_pres _ _ _ _ h
  refine ⟨?_, ?_⟩
  · rw [hoc, ha, hinv.1]
  · intro i hi
    rw [ha, hst]
    exact hinv.2 i (by rwa [hsz] at hi)

/-- A full collection cycle preserves the invariant: mark_all marks every
root, and the sweep never frees a marked slot. -/
theorem inv_collect (vm vm' : VM)
    (hinv : Inv vm) (h : gc_collect vm = some vm') : Inv vm' := by
  unfold gc_collect at h
  cases hma : gc_mark_all vm with
  | none => rw [hma] at h; exact absurd h (by simp)
  | some vmm =>
    rw [hma] at h
    cases Option.some.inj h
    have hinvm := inv_mark_all _ _ hinv hma
    obtain ⟨ha, _, hst, hsz, _⟩ := gc_markAllGo_pres _ _ _ _ hma
    have hroots : ∀ i, i < vmm.stackSize → vmm.marked (vmm.stack i) = true := by
      intro i hi
      rw [hst]
      exact gc_markAllGo_marks_roots _ _ _ _ hma i (Nat.zero_le i)
        (by rw [hsz] at hi; omega)
    obtain ⟨hsst, hssz, _⟩ := gc_sweepGo_pres OBJECTS_MAX vmm 0
    show Inv (gc_sweepGo vmm 0 OBJECTS_MAX)
    refine ⟨gc_sweepGo_count OBJECTS_MAX vmm 0 (by omega) hinvm.1, ?_⟩
    intro i hi
    rw [hssz] at hi
    rw [hsst]
    exact gc_sweepGo_keep OBJECTS_MAX vmm 0 _ (hinvm.2 i hi)
      (Or.inl (hroots i hi))

/-- One step of the public operations exactly as C10 states them, the sweep
phase included as a standalone operation. -/
inductive StepClaimed : VM → VM → Prop where
  | pushInt (vm vm' : VM) (n : Int) :
      vm_push_int vm n = .ok vm' → StepClaimed vm vm'
  | pushPair (vm vm' : VM) :
      vm_push_pair vm = .ok vm' → StepClaimed vm vm'
  | pop (vm vm' : VM) (x : Nat) :
      vm_pop vm = .ok (x, vm') → StepClaimed vm vm'
  | markAll (vm vm' : VM) :
      gc_mark_all vm = some vm' → StepClaimed vm vm'
  | sweep (vm : VM) : StepClaimed vm (gc_sweep vm)

/-- States reachable from vm_init by the operations as C10 lists them. -/
def ReachableClaimed (vm : VM) : Prop :=
  Relation.ReflTransGen StepClaimed vm_init vm

/-- One step of the public operations with the sweep phase only ever run as
part of a full collection cycle (mark_all immediately followed by sweep). -/
inductive StepVM : VM → VM → Prop where
  | pushInt (vm vm' : VM) (n : Int) :
      vm_push_int vm n = .ok vm' → StepVM vm vm'
  | pushPair (vm vm' : VM) :
      vm_push_pair vm = .ok vm' → StepVM vm vm'
  | pop (vm vm' : VM) (x : Nat) :
      vm_pop vm = .ok (x, vm') → StepVM vm vm'
  | markAll (vm vm' : VM) :
      gc_mark_all vm = some vm' → StepVM vm vm'
  | collect (vm vm' : VM) :
      gc_collect vm = some vm' → StepVM vm vm'

/-- States reachable from vm_init with sweep tied to a preceding mark_all. -/
def ReachableVM (vm : VM) : Prop :=
  Relation.ReflTransGen StepVM vm_init vm

/-- The state reached by push_scalar 5 then a bare sweep (no mark phase). -/
def vmSweepBare : VM := gc_sweep vmOne

/-- C10 counterexample: with sweep available as a standalone public
operation, a reachable state violates the root-validity half of the claimed
invariant: push_scalar 5 then sweep (without mark_all) frees slot 0 while
handle 0 is still on the root stack below stack_size = 1. -/
theorem sweep_bare_breaks_root_validity :
    ReachableClaimed vmSweepBare ∧
    vmSweepBare.stackSize = 1 ∧
    vmSweepBare.allocated (vmSweepBare.stack 0) = false := by
  refine ⟨?_, by decide, by decide⟩
  exact Relation.ReflTransGen.tail
    (Relation.ReflTransGen.single (StepClaimed.pushInt vm_init vmOne 5 rfl))
    (StepClaimed.sweep vmOne)

/-- C10 amended: in every state reachable from vm_init by push_scalar,
push_composite, pop, mark_all and full collection cycles (mark_all followed
immediately by sweep), object_count equals the number of allocated slots and
every handle on the root stack below stack_size names an allocated slot. -/
theorem reachable_inv (vm : VM) (h : ReachableVM vm) : Inv vm := by
  induction h with
  | refl =>
    constructor
    · show (0 : Nat) = countAllocF fun _ => false
      simp [countAllocF]
    · intro i hi
      exact absurd hi (by simp [vm_init])
  | tail _ hstep ih =>
    cases hstep with
    | pushInt n h => exact inv_push _ _ _ ih h
    | pushPair h => exact inv_push_pair _ _ ih h
    | pop x h => exact inv_pop _ _ _ ih h
    | markAll h => exact inv_mark_all _ _ ih h
    | collect h => exact inv_collect _ _ ih h

/-- Witness for the amended C10: vm_init itself is reachable and satisfies
the invariant. -/
theorem reachable_inv_witness : ReachableVM vm_init ∧ Inv vm_init :=
  ⟨Relation.ReflTransGen.refl, reachable_inv vm_init Relation.ReflTransGen.refl⟩

end GC
